import Mathlib

/-!
# Verification of prometools: lock-free time histogram and serde label serializer

Shallow embedding of the `prometools` Rust crate:

* `src/histogram.rs` — `TimeHistogram`, `HistogramTimer` (observe, bucket
  routing, stop/drop semantics).  `u64` counters are modelled as `Nat`
  with explicit `% 2^64`; `f64` bucket bounds are modelled as exact
  rationals (`ℚ`), with `f64::MAX` as the explicit maximal finite value
  `(2 - 2⁻⁵²)·2¹⁰²³`; `Instant`/`Duration` are explicit nanosecond
  timestamps passed as arguments.
* `src/serde/top.rs`, `src/serde/value.rs`, `src/serde/str.rs` — the
  restrictive label text serializer.  A serde `Serialize` input is
  modelled by the inductive `SValue`, one constructor per `Serializer`
  trait method that the derived impls can invoke.  The byte sink
  (`Writer`, append-only) is modelled by the text written by a call
  (`List Char`); the byte-level escaping loop of `value.rs` /`str.rs` is
  modelled separately on UTF-8 byte lists and related to the char-level
  escaping by a theorem.
* `src/serde/mod.rs` — the `Family` map, modelled sequentially as an
  association list; metric-instance identity (`Arc` identity in Rust) is
  modelled by numeric ids allocated by the constructor.
-/

namespace Prometools

/-! ## Error model

`src/serde/error.rs` is not part of the sources at hand; `Unexpected` and
`Error` are modelled from their uses in `top.rs`/`value.rs` (constructor
arms referenced there) and the spec's error taxonomy: `invalid-key`,
`unsupported-shape-at-top-level`, `unexpected-value-shape`, `io-failure`. -/

/-- The shapes an `Unexpected` error can name, from the constructor arms
used in `top.rs` and `value.rs`.  The `f64`/`f32` payload of `Float` is
carried as its decimal rendering. -/
inductive Unexpected where
  | Bool (b : Bool)
  | Signed (n : Int)
  | Unsigned (n : Nat)
  | Float (rep : String)
  | Char (c : Char)
  | Str
  | Bytes
  | Variant (ty name : String)
  | Seq (len : Option Nat)
  | Tuple (len : Nat)
  | Struct (ty : String)
  | Map (len : Option Nat)
deriving DecidableEq, Repr

/-- Serializer errors: the three classifying wrappers built in
`top.rs`/`value.rs` (`invalid_key`, `unsupported`, `unexpected`) plus
I/O passthrough. -/
inductive Error where
  | invalidKey (key : String)
  | unsupported (kind : Unexpected)
  | unexpectedValue (kind : Unexpected)
  | ioError
deriving DecidableEq, Repr

deriving instance DecidableEq for Except

/-! ## Serde data model

One constructor per `Serializer` method a derived `Serialize` impl can
call.  Compound shapes that the serializers reject *before* visiting any
element (`serialize_seq`, `serialize_map`, … return `Err` or
`Impossible`) carry only the length argument passed to the method;
structs carry their fields since `StructSerializer` visits them. -/

inductive SValue where
  | vBool (b : Bool)
  | vInt (n : Int)
  | vUInt (n : Nat)
  | vFloat (rep : String)
  | vChar (c : Char)
  | vStr (s : String)
  | vBytes (len : Nat)
  | vUnit
  | vUnitStruct (name : String)
  | vUnitVariant (ty name : String)
  | vNewtypeStruct (name : String) (v : SValue)
  | vNewtypeVariant (ty name : String) (v : SValue)
  | vNone
  | vSome (v : SValue)
  | vSeq (len : Option Nat)
  | vTuple (len : Nat)
  | vTupleStruct (ty : String) (len : Nat)
  | vTupleVariant (ty name : String) (len : Nat)
  | vMap (len : Option Nat)
  | vStruct (ty : String) (fields : List (String × SValue))
  | vStructVariant (ty name : String) (len : Nat)

/-! ## String escaping (`value.rs::write_escaped`, `str.rs`)

The Rust code scans the raw UTF-8 bytes of the string with
`AsciiPattern::take_until_match` for the three single-byte characters
`"` (34), `\` (92), `'\n'` (10).  We model the byte-level loop faithfully
on `List Nat` and, separately, the per-character escaping it implements
on `List Char`; `write_escaped_spec` relates the two. -/

/-- UTF-8 encoding of one Unicode scalar value (the encoding `str`
guarantees; `Char::encode_utf8` in `serialize_char`). -/
def charUtf8 (c : Char) : List Nat :=
  let n := c.toNat
  if n < 0x80 then [n]
  else if n < 0x800 then [0xC0 + n / 64, 0x80 + n % 64]
  else if n < 0x10000 then [0xE0 + n / 4096, 0x80 + n / 64 % 64, 0x80 + n % 64]
  else [0xF0 + n / 262144, 0x80 + n / 4096 % 64, 0x80 + n / 64 % 64, 0x80 + n % 64]

/-- The UTF-8 bytes of a string. -/
def strUtf8 (cs : List Char) : List Nat := (cs.map charUtf8).flatten

/-- `AsciiPattern::new(b"\"\\\n")`: the three escaped bytes. -/
def escPattern : List Nat := [34, 92, 10]

/-- `AsciiPattern::take_until_match`: split the haystack at the first
byte belonging to the pattern, returning the chunk before it, the
matched byte, and the rest after it; `none` when no byte matches
(`contains` is rendered as list membership). -/
def takeUntilMatch (chars : List Nat) : List Nat → Option (List Nat × Nat × List Nat)
  | [] => none
  | b :: rest =>
    if b ∈ chars then some ([], b, rest)
    else (takeUntilMatch chars rest).map fun p => (b :: p.1, p.2.1, p.2.2)

theorem takeUntilMatch_some_spec {chars : List Nat} :
    ∀ {s chunk found rest}, takeUntilMatch chars s = some (chunk, found, rest) →
      s = chunk ++ found :: rest ∧ found ∈ chars ∧ ∀ b ∈ chunk, b ∉ chars := by
  intro s
  induction s with
  | nil => intro chunk found rest h; simp [takeUntilMatch] at h
  | cons b tl ih =>
    intro chunk found rest h
    by_cases hb : b ∈ chars
    · simp only [takeUntilMatch, if_pos hb, Option.some.injEq, Prod.mk.injEq] at h
      obtain ⟨h1, h2, h3⟩ := h
      subst h1; subst h2; subst h3
      exact ⟨rfl, hb, by simp⟩
    · simp only [takeUntilMatch, if_neg hb, Option.map_eq_some'] at h
      obtain ⟨⟨c', f', r'⟩, hrec, heq⟩ := h
      simp only [Prod.mk.injEq] at heq
      obtain ⟨h1, h2, h3⟩ := heq
      subst h1; subst h2; subst h3
      obtain ⟨hs, hf, hc⟩ := ih hrec
      refine ⟨by rw [hs]; rfl, hf, ?_⟩
      intro x hx
      rcases List.mem_cons.mp hx with rfl | hmem
      · exact hb
      · exact hc x hmem

theorem takeUntilMatch_none_spec {chars : List Nat} :
    ∀ {s}, takeUntilMatch chars s = none → ∀ b ∈ s, b ∉ chars := by
  intro s
  induction s with
  | nil => intro _ b hb; simp at hb
  | cons b tl ih =>
    intro h c hc
    by_cases hb : b ∈ chars
    · simp [takeUntilMatch, if_pos hb] at h
    · simp only [takeUntilMatch, if_neg hb, Option.map_eq_none'] at h
      rcases List.mem_cons.mp hc with rfl | hmem
      · exact hb
      · exact ih h c hmem

/-- The escaping loop of `write_escaped`: repeatedly split at the next
`"`/`\`/newline byte, pass the chunk through verbatim, and emit the
escape (`\n` for newline, backslash-prefixed byte otherwise); the final
unmatched tail is written as-is. -/
def writeEscapedBytes (s : List Nat) : List Nat :=
  match h : takeUntilMatch escPattern s with
  | none => s
  | some (chunk, found, rest) =>
      chunk ++ (if found = 10 then [92, 110] else [92, found]) ++ writeEscapedBytes rest
termination_by s.length
decreasing_by
  simp only [(takeUntilMatch_some_spec h).1, List.length_append, List.length_cons]
  omega

/-- `write_escaped` itself: escape the UTF-8 bytes of the input string. -/
def write_escaped (s : List Char) : List Nat := writeEscapedBytes (strUtf8 s)

/-- Spec-level byte escape: what the loop does to each byte. -/
def escByte (b : Nat) : List Nat :=
  if b ∈ escPattern then (if b = 10 then [92, 110] else [92, b]) else [b]

theorem flat_escByte_of_no_match {l : List Nat} (h : ∀ b ∈ l, b ∉ escPattern) :
    (l.map escByte).flatten = l := by
  induction l with
  | nil => simp
  | cons b tl ih =>
    simp only [List.map_cons, List.flatten_cons, escByte, if_neg (h b (by simp))]
    rw [ih fun c hc => h c (List.mem_cons_of_mem _ hc)]
    rfl

theorem writeEscapedBytes_eq_flat (s : List Nat) :
    writeEscapedBytes s = (s.map escByte).flatten := by
  induction s using writeEscapedBytes.induct with
  | case1 s hnone =>
    rw [writeEscapedBytes, hnone, flat_escByte_of_no_match (takeUntilMatch_none_spec hnone)]
  | case2 s chunk found rest hsome ih =>
    obtain ⟨hsplit, hfound, hchunk⟩ := takeUntilMatch_some_spec hsome
    have hunf : writeEscapedBytes s =
        chunk ++ (if found = 10 then [92, 110] else [92, found]) ++ writeEscapedBytes rest := by
      rw [writeEscapedBytes]
      split
      · next hnone => rw [hnone] at hsome; exact absurd hsome (by simp)
      · next c f r hsome2 =>
        rw [hsome2] at hsome
        simp only [Option.some.injEq, Prod.mk.injEq] at hsome
        obtain ⟨h1, h2, h3⟩ := hsome
        rw [h1, h2, h3]
    rw [hunf, ih, hsplit]
    simp only [List.map_append, List.flatten_append, List.map_cons, List.flatten_cons,
      flat_escByte_of_no_match hchunk, escByte, if_pos hfound, List.append_assoc]

/-- Per-character escape: a quote or backslash re-emitted prefixed by a
backslash, a newline as the two characters `\` `n`, anything else
verbatim. -/
def escapeChar (c : Char) : List Char :=
  if c = '"' then ['\\', '"']
  else if c = '\\' then ['\\', '\\']
  else if c = '\n' then ['\\', 'n']
  else [c]

/-- Character-level escaping of a whole character sequence. -/
def escapeChars (cs : List Char) : List Char := (cs.map escapeChar).flatten

/-- Escaping of a Rust `&str`, producing text (used by the value-level
serializer model; related to the byte-level `write_escaped` by
`claim_C5_escaping`). -/
def escapeStr (s : String) : List Char := escapeChars s.data

theorem char_toNat_inj {c d : Char} (h : c.toNat = d.toNat) : c = d :=
  Char.ext (UInt32.ext h)

theorem charUtf8_ascii {c : Char} (h : c.toNat < 0x80) : charUtf8 c = [c.toNat] := by
  simp [charUtf8, h]

theorem charUtf8_multibyte {c : Char} (h : ¬ c.toNat < 0x80) :
    ∀ b ∈ charUtf8 c, 0x80 ≤ b := by
  intro b hb
  unfold charUtf8 at hb
  simp only [if_neg h] at hb
  split_ifs at hb <;> simp at hb <;> omega

theorem strUtf8_append (a b : List Char) : strUtf8 (a ++ b) = strUtf8 a ++ strUtf8 b := by
  simp [strUtf8]

theorem charUtf8_escape (c : Char) :
    ((charUtf8 c).map escByte).flatten = strUtf8 (escapeChar c) := by
  by_cases h80 : c.toNat < 0x80
  · rw [charUtf8_ascii h80]
    by_cases hq : c = '"'
    · subst hq; decide
    by_cases hbs : c = '\\'
    · subst hbs; decide
    by_cases hnl : c = '\n'
    · subst hnl; decide
    have h34 : c.toNat ≠ 34 := fun h => hq (char_toNat_inj h)
    have h92 : c.toNat ≠ 92 := fun h => hbs (char_toNat_inj h)
    have h10 : c.toNat ≠ 10 := fun h => hnl (char_toNat_inj h)
    have hmem : c.toNat ∉ escPattern := by
      simp [escPattern, h34, h92, h10]
    simp only [escapeChar, if_neg hq, if_neg hbs, if_neg hnl, List.map_cons,
      List.map_nil, List.flatten_cons, List.flatten_nil, escByte, if_neg hmem,
      strUtf8, charUtf8_ascii h80]
  · have hmb := charUtf8_multibyte h80
    have hq : c ≠ '"' := by rintro rfl; exact h80 (by decide)
    have hbs : c ≠ '\\' := by rintro rfl; exact h80 (by decide)
    have hnl : c ≠ '\n' := by rintro rfl; exact h80 (by decide)
    rw [flat_escByte_of_no_match]
    · simp only [escapeChar, if_neg hq, if_neg hbs, if_neg hnl, strUtf8,
        List.map_cons, List.map_nil, List.flatten_cons, List.flatten_nil]
      simp
    · intro b hb hbp
      have := hmb b hb
      have : b = 34 ∨ b = 92 ∨ b = 10 := by simpa [escPattern] using hbp
      omega

/-- `C5`: For every input string, the escaping writer (`write_escaped`,
scanning the UTF-8 bytes with `AsciiPattern::take_until_match`) produces
exactly the input with each `"` replaced by `\"`, each `\` by `\\`, each
newline by `\n`, and every other character — multi-byte ones included —
passed through verbatim; the output is the UTF-8 encoding of the
character-wise escaped text, so no chunk boundary ever falls inside a
multi-byte character. -/
theorem claim_C5_escaping (s : List Char) :
    write_escaped s = strUtf8 ((s.map escapeChar).flatten) := by
  rw [write_escaped, writeEscapedBytes_eq_flat]
  induction s with
  | nil => rfl
  | cons c tl ih =>
    have hcons : strUtf8 (c :: tl) = charUtf8 c ++ strUtf8 tl := by simp [strUtf8]
    rw [hcons, List.map_append, List.flatten_append, ih, List.map_cons,
      List.flatten_cons, strUtf8_append, charUtf8_escape]

/-! ## Value-level serializer (`value.rs::ValueSerializer`)

Each call returns the serde result together with the text written to the
(append-only) `Writer` sink by that call.  String writes go through
`write_escaped`, represented at the character level by `escapeStr`
(justified by `claim_C5_escaping`). -/

def valueSerialize : SValue → Except Error Unit × List Char
  | .vBool b => (.ok (), if b then "true".data else "false".data)
  | .vInt n => (.ok (), (toString n).data)
  | .vUInt n => (.ok (), (toString n).data)
  | .vFloat rep => (.ok (), rep.data)
  | .vChar c =>
    (.ok (), if c = '"' then ['\\', '"']
      else if c = '\\' then ['\\', '\\']
      else if c = '\n' then ['\\', 'n']
      else [c])
  | .vStr s => (.ok (), escapeStr s)
  | .vBytes _ => (.error (.unexpectedValue .Bytes), [])
  | .vUnit => (.ok (), [])
  | .vUnitStruct name => (.ok (), escapeStr name)
  | .vUnitVariant _ name => (.ok (), escapeStr name)
  | .vNewtypeStruct _ v => valueSerialize v
  | .vNewtypeVariant ty name _ => (.error (.unexpectedValue (.Variant ty name)), [])
  | .vNone => (.ok (), [])
  | .vSome v => valueSerialize v
  | .vSeq len => (.error (.unexpectedValue (.Seq len)), [])
  | .vTuple len => (.error (.unexpectedValue (.Tuple len)), [])
  | .vTupleStruct ty _ => (.error (.unexpectedValue (.Struct ty)), [])
  | .vTupleVariant ty name _ => (.error (.unexpectedValue (.Variant ty name)), [])
  | .vMap len => (.error (.unexpectedValue (.Map len)), [])
  | .vStruct ty _ => (.error (.unexpectedValue (.Struct ty)), [])
  | .vStructVariant ty name _ => (.error (.unexpectedValue (.Variant ty name)), [])

/-! ## Top-level serializer (`top.rs`) -/

/-- `top.rs::check_key`: the first character must be an ASCII letter,
underscore or colon, every later character an ASCII alphanumeric,
underscore or colon (`Char.isAlpha`/`Char.isAlphanum` are the ASCII
predicates, matching `is_ascii_alphabetic`/`is_ascii_alphanumeric`). -/
def check_key (key : String) : Except Error Unit :=
  match key.data with
  | [] => .error (.invalidKey key)
  | c :: rest =>
    if c.isAlpha || c = '_' || c = ':' then
      if rest.all fun c => c.isAlphanum || c = '_' || c = ':' then .ok ()
      else .error (.invalidKey key)
    else .error (.invalidKey key)

/-- `top.rs::StructSerializer::serialize_field`: validate the key; write
`",` first when a previous pair was written (otherwise set the flag);
write the key and `="`; then serialize the value with the value-level
pass.  Returns (result, updated flag, text written). -/
def serializeField (hw : Bool) (k : String) (v : SValue) :
    Except Error Unit × Bool × List Char :=
  match check_key k with
  | .error e => (.error e, hw, [])
  | .ok () =>
    let pre : List Char := if hw then ['"', ','] else []
    let (r, t) := valueSerialize v
    (r, true, pre ++ k.data ++ ['=', '"'] ++ t)

/-- The derived `Serialize` impl of a struct: `serialize_field` per field
in declaration order, aborting on the first error. -/
def serializeStructFields : List (String × SValue) → Bool →
    Except Error Unit × Bool × List Char
  | [], hw => (.ok (), hw, [])
  | (k, v) :: rest, hw =>
    match serializeField hw k v with
    | (.ok (), hw', t) =>
      let (r, hw'', t') := serializeStructFields rest hw'
      (r, hw'', t ++ t')
    | (.error e, hw', t) => (.error e, hw', t)

/-- `top.rs::TopSerializer`: the whole-label-set pass.  Only struct-like
shapes are serialized (through `StructSerializer`, closing with `"` when
anything was written); unit, unit structs and `None` encode to nothing;
`serialize_newtype_struct` and `serialize_some` recurse into the inner
value; everything else is rejected with an unsupported-at-top-level
error naming the shape. -/
def topSerialize : SValue → Except Error Unit × List Char
  | .vBool b => (.error (.unsupported (.Bool b)), [])
  | .vInt n => (.error (.unsupported (.Signed n)), [])
  | .vUInt n => (.error (.unsupported (.Unsigned n)), [])
  | .vFloat rep => (.error (.unsupported (.Float rep)), [])
  | .vChar c => (.error (.unsupported (.Char c)), [])
  | .vStr _ => (.error (.unsupported .Str), [])
  | .vBytes _ => (.error (.unsupported .Bytes), [])
  | .vUnit => (.ok (), [])
  | .vUnitStruct _ => (.ok (), [])
  | .vUnitVariant ty name => (.error (.unsupported (.Variant ty name)), [])
  | .vNewtypeStruct _ v => topSerialize v
  | .vNewtypeVariant ty name _ => (.error (.unsupported (.Variant ty name)), [])
  | .vNone => (.ok (), [])
  | .vSome v => topSerialize v
  | .vSeq len => (.error (.unsupported (.Seq len)), [])
  | .vTuple len => (.error (.unsupported (.Tuple len)), [])
  | .vTupleStruct ty _ => (.error (.unsupported (.Struct ty)), [])
  | .vTupleVariant ty name _ => (.error (.unsupported (.Variant ty name)), [])
  | .vMap len => (.error (.unsupported (.Map len)), [])
  | .vStruct _ fields =>
    match serializeStructFields fields false with
    | (.ok (), hw, t) => (.ok (), t ++ if hw then ['"'] else [])
    | (.error e, _, t) => (.error e, t)
  | .vStructVariant ty name _ => (.error (.unsupported (.Variant ty name)), [])

/-- The key grammar as the spec words it: first character an ASCII
letter, underscore or colon; every subsequent character an ASCII
alphanumeric, underscore or colon. -/
def keyValidSpec (key : String) : Bool :=
  match key.data with
  | [] => false
  | c :: rest =>
    (c.isAlpha || c = '_' || c = ':') &&
      rest.all fun c => c.isAlphanum || c = '_' || c = ':'

/-- Classification of the shapes `TopSerializer` rejects, with the
`Unexpected` payload each rejecting arm constructs. -/
def topRejected : SValue → Option Unexpected
  | .vBool b => some (.Bool b)
  | .vInt n => some (.Signed n)
  | .vUInt n => some (.Unsigned n)
  | .vFloat rep => some (.Float rep)
  | .vChar c => some (.Char c)
  | .vStr _ => some .Str
  | .vBytes _ => some .Bytes
  | .vUnitVariant ty name => some (.Variant ty name)
  | .vNewtypeVariant ty name _ => some (.Variant ty name)
  | .vSeq len => some (.Seq len)
  | .vTuple len => some (.Tuple len)
  | .vTupleStruct ty _ => some (.Struct ty)
  | .vTupleVariant ty name _ => some (.Variant ty name)
  | .vMap len => some (.Map len)
  | .vStructVariant ty name _ => some (.Variant ty name)
  | _ => none

/-- The absent/unit-like shapes the top level accepts as "encode to
nothing". -/
def topUnitLike : SValue → Bool
  | .vUnit => true
  | .vUnitStruct _ => true
  | .vNone => true
  | _ => false

/-- The text of one serialized label pair: `key="value"`. -/
def labelPair (p : String × SValue) : List Char :=
  p.1.data ++ ['=', '"'] ++ (valueSerialize p.2).2 ++ ['"']

/-- Spec-side struct output: each field's pair in declaration order,
subsequent pairs preceded by a comma; zero fields yield nothing. -/
def labelList : List (String × SValue) → List Char
  | [] => []
  | p :: rest => labelPair p ++ (rest.map fun q => ',' :: labelPair q).flatten

/-- The text written for a pair before its closing quote (which the
struct serializer emits as part of the next separator or of `end`). -/
def pairOpen (p : String × SValue) : List Char :=
  p.1.data ++ ['=', '"'] ++ (valueSerialize p.2).2

theorem serializeStructFields_true (fields : List (String × SValue))
    (hok : ∀ p ∈ fields, check_key p.1 = .ok () ∧ (valueSerialize p.2).1 = .ok ()) :
    serializeStructFields fields true =
      (.ok (), true, (fields.map fun q => '"' :: ',' :: pairOpen q).flatten) := by
  induction fields with
  | nil => rfl
  | cons p tl ih =>
    obtain ⟨hk, hv⟩ := hok p (by simp)
    obtain ⟨pk, pv⟩ := p
    simp only [serializeStructFields, serializeField, hk]
    rw [show valueSerialize pv = (.ok (), (valueSerialize pv).2) from by
      rw [← hv]]
    simp only [ih fun q hq => hok q (List.mem_cons_of_mem _ hq), List.map_cons,
      List.flatten_cons, pairOpen]
    simp [List.append_assoc]

theorem serializeStructFields_false (fields : List (String × SValue))
    (hok : ∀ p ∈ fields, check_key p.1 = .ok () ∧ (valueSerialize p.2).1 = .ok ()) :
    serializeStructFields fields false =
      match fields with
      | [] => (.ok (), false, [])
      | p :: tl =>
        (.ok (), true, pairOpen p ++ (tl.map fun q => '"' :: ',' :: pairOpen q).flatten) := by
  cases fields with
  | nil => rfl
  | cons p tl =>
    obtain ⟨hk, hv⟩ := hok p (by simp)
    obtain ⟨pk, pv⟩ := p
    simp only [serializeStructFields, serializeField, hk]
    rw [show valueSerialize pv = (.ok (), (valueSerialize pv).2) from by
      rw [← hv]]
    simp only [serializeStructFields_true tl fun q hq => hok q (List.mem_cons_of_mem _ hq),
      pairOpen]
    simp [List.append_assoc]

theorem labelList_telescope (x : List Char) (rest : List (String × SValue)) :
    x ++ (rest.map fun q => '"' :: ',' :: pairOpen q).flatten ++ ['"'] =
      (x ++ ['"']) ++ (rest.map fun q => ',' :: labelPair q).flatten := by
  induction rest generalizing x with
  | nil => simp
  | cons q tl ih =>
    simp only [List.map_cons, List.flatten_cons]
    have h1 : x ++ (('"' :: ',' :: pairOpen q) ++
        (tl.map fun r => '"' :: ',' :: pairOpen r).flatten) ++ ['"'] =
        (x ++ ('"' :: ',' :: pairOpen q)) ++
          (tl.map fun r => '"' :: ',' :: pairOpen r).flatten ++ ['"'] := by
      simp [List.append_assoc]
    rw [h1, ih]
    simp [labelPair, pairOpen, List.append_assoc]

/-- `C2`: serializing a struct-shaped label set with valid keys and
serializable field values writes, for each field in declaration order,
the pair `key="value"`, subsequent pairs preceded by a comma; a struct
with zero fields writes nothing at all. -/
theorem claim_C2_struct_output (ty : String) (fields : List (String × SValue))
    (hok : ∀ p ∈ fields, check_key p.1 = .ok () ∧ (valueSerialize p.2).1 = .ok ()) :
    topSerialize (.vStruct ty fields) = (.ok (), labelList fields) := by
  cases fields with
  | nil => rfl
  | cons p tl =>
    simp only [topSerialize, serializeStructFields_false _ hok, labelList]
    show (Except.ok (),
        pairOpen p ++ (tl.map fun q => '"' :: ',' :: pairOpen q).flatten ++ ['"']) = _
    rw [labelList_telescope (pairOpen p) tl]
    simp [labelPair, pairOpen, List.append_assoc]

/-- Witness for `C2` at the spec's concrete example: the struct
`{a: 1, b: "x\"y"}` serializes to exactly `a="1",b="x\"y"`. -/
theorem claim_C2_struct_output_witness :
    (∀ p ∈ ([("a", SValue.vUInt 1), ("b", SValue.vStr "x\"y")] : List (String × SValue)),
        check_key p.1 = .ok () ∧ (valueSerialize p.2).1 = .ok ()) ∧
      topSerialize (.vStruct "Labels" [("a", SValue.vUInt 1), ("b", SValue.vStr "x\"y")]) =
        (.ok (), "a=\"1\",b=\"x\\\"y\"".data) :=
  ⟨by decide, (claim_C2_struct_output "Labels" _ (by decide)).trans (by decide)⟩

/-- `C4`: the top-level pass accepts only struct-like shapes and
absent/unit-like values (the latter encode to nothing); every rejected
shape — primitive scalars, strings, byte strings, sequences, tuples,
maps, enum variants — yields an unsupported-at-top-level error naming
the offending shape, with nothing written. -/
theorem claim_C4_top_rejections (v : SValue) :
    (∀ u, topRejected v = some u → topSerialize v = (.error (.unsupported u), [])) ∧
      (topUnitLike v = true → topSerialize v = (.ok (), [])) := by
  cases v <;> simp [topRejected, topUnitLike, topSerialize]

/-- Witness for `C4`: a bare integer at top level fails with the
unsupported-unsigned-shape error and writes nothing. -/
theorem claim_C4_top_rejections_witness :
    topSerialize (.vUInt 5) = (.error (.unsupported (.Unsigned 5)), []) :=
  (claim_C4_top_rejections (.vUInt 5)).1 (.Unsigned 5) rfl

/-- `C6`: key validation succeeds exactly on the spec's key grammar and
fails with an invalid-key error naming the key text otherwise. -/
theorem claim_C6_check_key (key : String) :
    check_key key =
      if keyValidSpec key then .ok () else .error (.invalidKey key) := by
  unfold check_key keyValidSpec
  cases hd : key.data with
  | nil => rfl
  | cons c rest =>
    cases hA : (c.isAlpha || c = '_' || c = ':') <;>
      cases hB : rest.all (fun c => c.isAlphanum || c = '_' || c = ':') <;>
        simp [hA, hB]

/-- Counterexample to `C9` as stated: a unit struct serialized as a
field value does not write nothing — `serialize_unit_struct` is
delegated to `serialize_str`, so it writes the struct's name. -/
theorem claim_C9_counterexample :
    valueSerialize (.vUnitStruct "Mode") = (.ok (), "Mode".data) ∧
      "Mode".data ≠ ([] : List Char) := by
  constructor
  · rfl
  · decide

/-- `C9` amended: at the value level, unit and `None` write nothing,
while unit structs and enum unit-variants are delegated to string
serialization and write their name through the escaping writer. -/
theorem claim_C9_amended (name ty vname : String) :
    valueSerialize .vUnit = (.ok (), []) ∧
      valueSerialize .vNone = (.ok (), []) ∧
      valueSerialize (.vUnitStruct name) = (.ok (), escapeStr name) ∧
      valueSerialize (.vUnitVariant ty vname) = (.ok (), escapeStr vname) :=
  ⟨rfl, rfl, rfl, rfl⟩

/-- `C10`: a bare enum unit-variant at the top level always fails with
an unsupported error naming the enum and variant (writing nothing),
while the same unit-variant as a struct field's value succeeds and
writes the (escaped) variant name. -/
theorem claim_C10_unit_variant (ty name : String) :
    topSerialize (.vUnitVariant ty name) =
        (.error (.unsupported (.Variant ty name)), []) ∧
      valueSerialize (.vUnitVariant ty name) = (.ok (), escapeStr name) :=
  ⟨rfl, rfl⟩

/-! ## Time histogram (`histogram.rs`)

`u64` atomics are `Nat` with explicit `% 2^64` on every fetch-add; the
relaxed-ordering concurrency is abstracted to sequential state passing
(the claims under verification are about the counter values, not the
memory model).  `f64` bucket bounds are exact rationals; `f64::MAX`
(the sentinel appended by `new`, which the spec calls the implicit
"+infinity" bound) is the maximal finite double `(2 - 2⁻⁵²)·2¹⁰²³`. -/

def U64LIM : Nat := 2 ^ 64

/-- `f64::MAX = (2 - 2⁻⁵²)·2¹⁰²³ = 2¹⁰²⁴ - 2⁹⁷¹`. -/
def f64MAX : ℚ := 2 ^ 1024 - 2 ^ 971

/-- `histogram.rs::Inner`: sum and count accumulators plus per-bucket
`(upper_bound, cumulative_count)` counters. -/
structure Inner where
  sum : Nat
  count : Nat
  buckets : List (ℚ × Nat)
deriving DecidableEq, Repr

/-- `v as f64 * 1E-9`: the observed value in seconds, as an exact
rational. -/
def nanosToSec (v : Nat) : ℚ := (v : ℚ) / 1000000000

/-- The bucket scan of `observe_and_bucket`: find the first bucket whose
upper bound is ≥ the observed seconds value, fetch-add 1 to its counter,
and report its index; buckets before it failed the comparison and later
buckets are not touched. -/
def bumpFirstBucket (vSec : ℚ) : List (ℚ × Nat) → List (ℚ × Nat) × Option Nat
  | [] => ([], none)
  | (ub, c) :: rest =>
    if vSec ≤ ub then ((ub, (c + 1) % U64LIM) :: rest, some 0)
    else
      let p := bumpFirstBucket vSec rest
      ((ub, c) :: p.1, p.2.map (· + 1))

/-- `TimeHistogram::observe_and_bucket`: fetch-add `v` to sum, 1 to
count, then bump the first matching bucket. -/
def observe_and_bucket (v : Nat) (h : Inner) : Inner × Option Nat :=
  let p := bumpFirstBucket (nanosToSec v) h.buckets
  ({ sum := (h.sum + v) % U64LIM, count := (h.count + 1) % U64LIM,
     buckets := p.1 }, p.2)

/-- `TimeHistogram::observe`. -/
def observe (v : Nat) (h : Inner) : Inner := (observe_and_bucket v h).1

/-- `TimeHistogram::new`: zeroed counters over the caller-supplied
bounds with the `f64::MAX` sentinel chained after them. -/
def TimeHistogram.new (bounds : List ℚ) : Inner :=
  { sum := 0, count := 0,
    buckets := (bounds ++ [f64MAX]).map fun ub => (ub, 0) }

/-- Any histogram reachable by a sequence of observations from
`TimeHistogram.new`. -/
def histAfter (bounds : List ℚ) (vs : List Nat) : Inner :=
  vs.foldl (fun acc w => observe w acc) (TimeHistogram.new bounds)

theorem bumpFirstBucket_fst (vSec : ℚ) :
    ∀ l : List (ℚ × Nat), (bumpFirstBucket vSec l).1.map Prod.fst = l.map Prod.fst := by
  intro l
  induction l with
  | nil => rfl
  | cons hd tl ih =>
    obtain ⟨ub, c⟩ := hd
    by_cases hc : vSec ≤ ub <;> simp [bumpFirstBucket, hc, ih]

theorem histAfter_bounds (bounds : List ℚ) (vs : List Nat) :
    (histAfter bounds vs).buckets.map Prod.fst = bounds ++ [f64MAX] := by
  suffices hstep : ∀ (vs : List Nat) (h : Inner),
      (vs.foldl (fun acc w => observe w acc) h).buckets.map Prod.fst =
        h.buckets.map Prod.fst by
    rw [histAfter, hstep]
    show ((bounds ++ [f64MAX]).map fun ub => (ub, (0 : Nat))).map Prod.fst =
      bounds ++ [f64MAX]
    rw [List.map_map, show (Prod.fst ∘ fun ub : ℚ => (ub, (0 : Nat))) = id from rfl,
      List.map_id]
  intro vs
  induction vs with
  | nil => intro h; rfl
  | cons w tl ih =>
    intro h
    rw [List.foldl_cons, ih]
    simp [observe, observe_and_bucket, bumpFirstBucket_fst]

theorem nanosToSec_le_f64MAX {v : Nat} (hv : v < 2 ^ 64) :
    nanosToSec v ≤ f64MAX := by
  have h1 : nanosToSec v ≤ (v : ℚ) :=
    div_le_self (by positivity) (by norm_num)
  have h2 : (v : ℚ) ≤ (2 ^ 64 : ℚ) := by
    exact_mod_cast Nat.le_of_lt hv
  have h3 : (2 ^ 64 : ℚ) ≤ f64MAX := by norm_num [f64MAX]
  linarith

theorem bumpFirstBucket_spec (vSec : ℚ) :
    ∀ l : List (ℚ × Nat), (∃ b ∈ l, vSec ≤ b.1) →
      ∃ i, (bumpFirstBucket vSec l).2 = some i ∧
        i = l.findIdx (fun b => decide (vSec ≤ b.1)) ∧
        ∀ j, ((bumpFirstBucket vSec l).1)[j]? =
          if j = i then l[j]?.map (fun b => (b.1, (b.2 + 1) % U64LIM)) else l[j]? := by
  intro l
  induction l with
  | nil => rintro ⟨b, hb, _⟩; simp at hb
  | cons hd tl ih =>
    rintro ⟨b, hb, hle⟩
    obtain ⟨ub, c⟩ := hd
    by_cases hhd : vSec ≤ ub
    · refine ⟨0, by simp [bumpFirstBucket, hhd], ?_, ?_⟩
      · rw [List.findIdx_cons]
        simp [hhd]
      · intro j
        cases j <;> simp [bumpFirstBucket, hhd]
    · have hex : ∃ b ∈ tl, vSec ≤ b.1 := by
        rcases List.mem_cons.mp hb with rfl | hmem
        · exact absurd hle hhd
        · exact ⟨b, hmem, hle⟩
      obtain ⟨i, h1, h2, h3⟩ := ih hex
      refine ⟨i + 1, by simp [bumpFirstBucket, hhd, h1], ?_, ?_⟩
      · rw [List.findIdx_cons]
        simp [hhd, h2]
      · intro j
        cases j with
        | zero => simp [bumpFirstBucket, hhd]
        | succ j =>
          have := h3 j
          simp only [bumpFirstBucket, if_neg hhd, List.getElem?_cons_succ,
            Nat.add_right_cancel_iff]
          simpa using this

theorem histAfter_has_match {bounds : List ℚ} {vs : List Nat} {v : Nat}
    (hv : v < 2 ^ 64) :
    ∃ b ∈ (histAfter bounds vs).buckets, nanosToSec v ≤ b.1 := by
  have hb := histAfter_bounds bounds vs
  have hmem : f64MAX ∈ (histAfter bounds vs).buckets.map Prod.fst := by
    rw [hb]; simp
  obtain ⟨b, hbmem, hbfst⟩ := List.mem_map.mp hmem
  exact ⟨b, hbmem, hbfst ▸ nanosToSec_le_f64MAX hv⟩

/-- `C1`: for every u64 nanosecond value and every reachable
`TimeHistogram`, `observe` fetch-adds exactly `v` to sum and exactly 1
to count (u64 arithmetic), and increments by 1 the counter of exactly
one bucket — the first bucket in sequence order whose upper bound is
≥ `v * 1e-9` seconds — leaving every other bucket unchanged. -/
theorem claim_C1_observe_exact (bounds : List ℚ) (vs : List Nat) (v : Nat)
    (hv : v < 2 ^ 64) :
    (observe_and_bucket v (histAfter bounds vs)).1.sum =
        ((histAfter bounds vs).sum + v) % U64LIM ∧
      (observe_and_bucket v (histAfter bounds vs)).1.count =
        ((histAfter bounds vs).count + 1) % U64LIM ∧
      (observe_and_bucket v (histAfter bounds vs)).2 =
        some ((histAfter bounds vs).buckets.findIdx
          fun b => decide (nanosToSec v ≤ b.1)) ∧
      ∀ j, (observe_and_bucket v (histAfter bounds vs)).1.buckets[j]? =
        if j = (histAfter bounds vs).buckets.findIdx
            (fun b => decide (nanosToSec v ≤ b.1)) then
          (histAfter bounds vs).buckets[j]?.map
            (fun b => (b.1, (b.2 + 1) % U64LIM))
        else (histAfter bounds vs).buckets[j]? := by
  obtain ⟨i, h1, h2, h3⟩ :=
    bumpFirstBucket_spec (nanosToSec v) _ (histAfter_has_match hv)
  subst h2
  exact ⟨rfl, rfl, h1, h3⟩

/-- Witness for `C1`: observing `1.5e9` ns on a fresh histogram with
bounds `[1, 2]` routes the observation into bucket 1. -/
theorem claim_C1_observe_exact_witness :
    1500000000 < 2 ^ 64 ∧
      ((observe_and_bucket 1500000000 (histAfter [1, 2] [])).1.sum =
          ((histAfter [1, 2] []).sum + 1500000000) % U64LIM ∧
        (observe_and_bucket 1500000000 (histAfter [1, 2] [])).1.count =
          ((histAfter [1, 2] []).count + 1) % U64LIM ∧
        (observe_and_bucket 1500000000 (histAfter [1, 2] [])).2 =
          some ((histAfter [1, 2] []).buckets.findIdx
            fun b => decide (nanosToSec 1500000000 ≤ b.1)) ∧
        ∀ j, (observe_and_bucket 1500000000 (histAfter [1, 2] [])).1.buckets[j]? =
          if j = (histAfter [1, 2] []).buckets.findIdx
              (fun b => decide (nanosToSec 1500000000 ≤ b.1)) then
            (histAfter [1, 2] []).buckets[j]?.map
              (fun b => (b.1, (b.2 + 1) % U64LIM))
          else (histAfter [1, 2] []).buckets[j]?) :=
  ⟨by decide, claim_C1_observe_exact [1, 2] [] 1500000000 (by decide)⟩

/-- `C8`: `TimeHistogram::new` appends a sentinel bucket bounded by the
maximum representable `f64` value (the spec's implicit "+infinity")
after the caller-supplied bounds, so for every u64 nanosecond input the
bucket search finds a match — the no-match branch of
`observe_and_bucket` is unreachable on any reachable histogram. -/
theorem claim_C8_sentinel (bounds : List ℚ) (vs : List Nat) (v : Nat)
    (hv : v < 2 ^ 64) :
    (TimeHistogram.new bounds).buckets =
        bounds.map (fun ub => (ub, 0)) ++ [(f64MAX, 0)] ∧
      (observe_and_bucket v (histAfter bounds vs)).2 ≠ none := by
  constructor
  · simp [TimeHistogram.new]
  · obtain ⟨i, h1, _, _⟩ :=
      bumpFirstBucket_spec (nanosToSec v) _ (@histAfter_has_match bounds vs v hv)
    simp [observe_and_bucket, h1]

/-- Witness for `C8`: with no caller bounds at all, an observation of
`u64::MAX` nanoseconds still lands in the sentinel bucket. -/
theorem claim_C8_sentinel_witness :
    2 ^ 64 - 1 < 2 ^ 64 ∧
      ((TimeHistogram.new []).buckets =
          ([] : List ℚ).map (fun ub => (ub, 0)) ++ [(f64MAX, 0)] ∧
        (observe_and_bucket (2 ^ 64 - 1) (histAfter [] [])).2 ≠ none) :=
  ⟨by decide, claim_C8_sentinel [] [] (2 ^ 64 - 1) (by decide)⟩

/-! ## Histogram timer (`histogram.rs::HistogramTimer`)

`Instant` is an explicit nanosecond timestamp passed to each operation
(`now`), and `saturating_duration_since` is truncated `Nat`
subtraction.  The timer's shared reference to its histogram is modelled
by carrying the histogram state inside the timer. -/

structure HistogramTimer where
  histogram : Inner
  observed : Bool
  start : Option Nat
  accumulated : Nat
deriving DecidableEq, Repr

/-- `TimeHistogram::start_timer` at time `now`: not yet observed,
running since `now`, nothing accumulated. -/
def start_timer (h : Inner) (now : Nat) : HistogramTimer :=
  { histogram := h, observed := false, start := some now, accumulated := 0 }

/-- `HistogramTimer::pause`: add the running span (saturating) to the
accumulated duration and stop running; a no-op when already paused. -/
def pause (now : Nat) (t : HistogramTimer) : HistogramTimer :=
  { t with
    accumulated := t.accumulated + (match t.start with
      | some s => now - s
      | none => 0)
    start := none }

/-- `HistogramTimer::resume`: start running again if paused; a no-op
when already running. -/
def resume (now : Nat) (t : HistogramTimer) : HistogramTimer :=
  if t.start.isNone then { t with start := some now } else t

/-- `HistogramTimer::observe(record)` at time `now`: elapsed is the
running span since `start` (zero when paused, saturating subtraction)
plus the accumulated duration; the timer is marked observed; when
`record` holds, `elapsed.as_nanos() as u64` is observed on the
histogram.  Returns the elapsed duration and the updated timer. -/
def timerObserve (record : Bool) (now : Nat) (t : HistogramTimer) :
    Nat × HistogramTimer :=
  let elapsedSinceStart := match t.start with
    | some s => now - s
    | none => 0
  let elapsed := elapsedSinceStart + t.accumulated
  (elapsed,
    { t with
      observed := true
      histogram := if record then observe (elapsed % U64LIM) t.histogram
        else t.histogram })

/-- `HistogramTimer::stop_and_record`: observe with recording. -/
def stop_and_record (now : Nat) (t : HistogramTimer) : Nat × HistogramTimer :=
  timerObserve true now t

/-- `HistogramTimer::stop_and_discard`: observe without recording. -/
def stop_and_discard (now : Nat) (t : HistogramTimer) : Nat × HistogramTimer :=
  timerObserve false now t

/-- `impl Drop for HistogramTimer`: when the timer is destroyed without
having been observed, observe-and-record at drop time; otherwise do
nothing. -/
def dropTimer (now : Nat) (t : HistogramTimer) : HistogramTimer :=
  if t.observed then t else (timerObserve true now t).2

/-- `C3`: each timer records at most one terminal observation — after
`stop_and_record` or `stop_and_discard`, destroying the timer changes
nothing (histogram included); and a timer destroyed while never
observed takes exactly the `stop_and_record` path at drop time,
computing elapsed the same way and recording it. -/
theorem claim_C3_terminal_observation (t : HistogramTimer) (now now2 : Nat) :
    dropTimer now2 (stop_and_record now t).2 = (stop_and_record now t).2 ∧
      dropTimer now2 (stop_and_discard now t).2 = (stop_and_discard now t).2 ∧
      (t.observed = false → dropTimer now t = (stop_and_record now t).2) := by
  refine ⟨?_, ?_, ?_⟩
  · simp [dropTimer, stop_and_record, timerObserve]
  · simp [dropTimer, stop_and_discard, timerObserve]
  · intro h
    simp [dropTimer, h, stop_and_record]

/-- Witness for `C3`: a freshly started timer is unobserved, and
dropping it equals stopping-and-recording it. -/
theorem claim_C3_terminal_observation_witness :
    (start_timer (TimeHistogram.new [1]) 5).observed = false ∧
      dropTimer 7 (start_timer (TimeHistogram.new [1]) 5) =
        (stop_and_record 7 (start_timer (TimeHistogram.new [1]) 5)).2 :=
  ⟨rfl,
    (claim_C3_terminal_observation (start_timer (TimeHistogram.new [1]) 5) 7 9).2.2 rfl⟩

/-! ## Label-keyed family map (`serde/mod.rs::Family`)

The `HashMap<Bridge<S>, M>` is modelled as an association list keyed by
`S` (`Bridge` is a transparent wrapper reusing `S`'s equality and
hash).  A metric instance is identified by the numeric id allocated when
the family's constructor builds it (`Arc` identity in Rust): "same
underlying instance" is id equality, and the constructor runs exactly
when a fresh id is allocated.  The reader/writer locking is
sequentialized; `or_insert_with` inserts only when the key is still
absent. -/

structure FamilyState (S : Type) where
  entries : List (S × Nat)
  nextId : Nat
deriving DecidableEq

/-- `HashMap::get` on the association list. -/
def lookupEntry {S : Type} [DecidableEq S] : List (S × Nat) → S → Option Nat
  | [], _ => none
  | (k', m) :: rest, k => if k' = k then some m else lookupEntry rest k

/-- `Family::get_or_create`: return the instance stored for the label
set when one exists (read path, no insertion); otherwise construct a
new instance via the family's constructor and insert it for that label
set (write path). -/
def get_or_create {S : Type} [DecidableEq S] (fam : FamilyState S) (k : S) :
    Nat × FamilyState S :=
  match lookupEntry fam.entries k with
  | some m => (m, fam)
  | none =>
    (fam.nextId,
      { entries := fam.entries ++ [(k, fam.nextId)], nextId := fam.nextId + 1 })

/-- `Family::remove`: drop the entry, reporting whether it was there. -/
def familyRemove {S : Type} [DecidableEq S] (fam : FamilyState S) (k : S) :
    Bool × FamilyState S :=
  ((lookupEntry fam.entries k).isSome,
    { fam with entries := fam.entries.filter fun p => p.1 ≠ k })

theorem lookupEntry_append_self {S : Type} [DecidableEq S]
    {l : List (S × Nat)} {k : S} (h : lookupEntry l k = none) (m : Nat) :
    lookupEntry (l ++ [(k, m)]) k = some m := by
  induction l with
  | nil => simp [lookupEntry]
  | cons p tl ih =>
    obtain ⟨k', m'⟩ := p
    by_cases hk : k' = k
    · simp [lookupEntry, hk] at h
    · simp only [lookupEntry, if_neg hk] at h ⊢
      exact ih h

theorem lookupEntry_none_not_mem {S : Type} [DecidableEq S]
    {l : List (S × Nat)} {k : S} (h : lookupEntry l k = none) :
    k ∉ l.map Prod.fst := by
  induction l with
  | nil => simp
  | cons p tl ih =>
    obtain ⟨k', m'⟩ := p
    by_cases hk : k' = k
    · simp [lookupEntry, hk] at h
    · simp only [lookupEntry, if_neg hk] at h
      simp only [List.map_cons, List.mem_cons]
      rintro (rfl | hmem)
      · exact hk rfl
      · exact ih h hmem

/-- `C7`: the family holds at most one metric instance per distinct
label-set value: a second `get_or_create` with an equal label set
returns the same instance and leaves the map unchanged; when an entry
already exists it is returned as-is with no construction; and the
one-entry-per-key invariant of the map is preserved. -/
theorem claim_C7_one_instance_per_label {S : Type} [DecidableEq S]
    (fam : FamilyState S) (k : S) :
    get_or_create (get_or_create fam k).2 k =
        ((get_or_create fam k).1, (get_or_create fam k).2) ∧
      (∀ m, lookupEntry fam.entries k = some m → get_or_create fam k = (m, fam)) ∧
      ((fam.entries.map Prod.fst).Nodup →
        ((get_or_create fam k).2.entries.map Prod.fst).Nodup) := by
  cases hl : lookupEntry fam.entries k with
  | none =>
    refine ⟨?_, ?_, ?_⟩
    · simp [get_or_create, hl, lookupEntry_append_self hl]
    · intro m hm
      simp at hm
    · intro hnd
      have hnm := lookupEntry_none_not_mem hl
      simp only [get_or_create, hl, List.map_append, List.map_cons, List.map_nil]
      simp [List.nodup_append, hnd, hnm]
  | some m =>
    refine ⟨?_, ?_, ?_⟩
    · simp [get_or_create, hl]
    · intro m' hm'
      obtain rfl : m = m' := by injection hm'
      simp [get_or_create, hl]
    · intro hnd
      simpa [get_or_create, hl] using hnd

/-- Witness for `C7` on a concrete family over `Nat` label sets. -/
theorem claim_C7_one_instance_per_label_witness :
    get_or_create (get_or_create (⟨[], 0⟩ : FamilyState Nat) 3).2 3 =
        ((get_or_create (⟨[], 0⟩ : FamilyState Nat) 3).1,
          (get_or_create (⟨[], 0⟩ : FamilyState Nat) 3).2) ∧
      (((⟨[], 0⟩ : FamilyState Nat).entries.map Prod.fst).Nodup ∧
        ((get_or_create (⟨[], 0⟩ : FamilyState Nat) 3).2.entries.map Prod.fst).Nodup) :=
  ⟨(claim_C7_one_instance_per_label (⟨[], 0⟩ : FamilyState Nat) 3).1,
    by decide,
    (claim_C7_one_instance_per_label (⟨[], 0⟩ : FamilyState Nat) 3).2.2 (by decide)⟩

end Prometools
